import Mathlib

/-!
# Per-pixel robust regression wrapper (`tmask/robreg.c`)

A shallow embedding of `wrap_gsl_multifit_robust`, the routine that walks every pixel of an
image stack, compacts the non-null observations of the pixel into a GSL design matrix and
response vector, runs the GSL robust solver on them and scatters the solver's results into
the output stacks.

Conventions of the embedding.

* A C `double` is its IEEE-754 binary64 bit pattern (`Double`); the only operation the routine
  performs on doubles is the comparison `!=`, embedded as `Double.ne`.
* The flat arrays behind the pointers `x`, `y`, `c`, `adj_Rsqrd`, `numIter`, `rmse` carry no
  length in the C signature; they are total maps from offsets to values, and a store is
  `Function.update`.
* The extents `numRows`, `numCols`, `numImages`, `numParams`, `numRowsX`, `numColsX` are array
  shapes, natural numbers; offsets are the mathematical values of the C index expressions.
* The GSL solver is external to the repository and is a parameter of the embedding
  (`Solver`): it receives the regression type, the design matrix and the response vector, and
  returns the status code, the coefficient vector and the statistics.
* The state carries a ghost `log` recording, in program order, the end of each pre-count and
  each solver invocation.
-/

namespace Robreg

/-! ## Doubles -/

/-- IEEE-754 binary64 value, given by its sign bit, biased exponent and fraction fields. -/
structure Double where
  sign : Bool
  exponent : Fin 2048
  fraction : Fin 4503599627370496
deriving DecidableEq

namespace Double

/-- NaN: all exponent bits set and a non-zero fraction. -/
def isNaN (d : Double) : Bool := d.exponent.val == 2047 && d.fraction.val != 0

/-- Positive or negative zero. -/
def isZero (d : Double) : Bool := d.exponent.val == 0 && d.fraction.val == 0

/-- The C comparison `a == b` on doubles: false when either operand is NaN, true on the two
zeros, otherwise equality of the bit patterns. -/
def eq (a b : Double) : Bool :=
  !a.isNaN && !b.isNaN && ((a.isZero && b.isZero) || decide (a = b))

/-- The C comparison `a != b` on doubles, the negation of `a == b`. -/
def ne (a b : Double) : Bool := !(eq a b)

/-- Positive zero, the all-zero bit pattern that `calloc` leaves in a fresh buffer. -/
def zero : Double := ⟨false, 0, 0⟩

/-- Negative zero. -/
def negZero : Double := ⟨true, 0, 0⟩

/-- The value `1.0`. -/
def one : Double := ⟨false, 1023, 0⟩

/-- The value `2.0`. -/
def two : Double := ⟨false, 1024, 0⟩

/-- The value `4.0`. -/
def four : Double := ⟨false, 1025, 0⟩

/-- The value `-9999.0` (`9999 = 2^13 + 1807`, fraction `1807 * 2^39`). -/
def negNullSentinel : Double := ⟨true, 1036, 993408755695616⟩

/-- The successor bit pattern of `-9999.0`, one unit in the last place away from it. -/
def nearNullSentinel : Double := ⟨true, 1036, 993408755695617⟩

/-- A quiet NaN. -/
def nan : Double := ⟨false, 2047, 2251799813685248⟩

end Double

/-! ## GSL containers -/

/-- The fields of `gsl_matrix` the routine uses: extents, row stride `tda` and the data block. -/
structure GslMatrix where
  size1 : Nat
  size2 : Nat
  tda : Nat
  data : List Double
deriving DecidableEq

/-- The fields of `gsl_vector` the routine uses: length, stride and the data block. -/
structure GslVector where
  size : Nat
  stride : Nat
  data : List Double
deriving DecidableEq

/-- `gsl_matrix_calloc(n1, n2)`: a zero-filled `n1 × n2` block with `tda = n2`. -/
def gsl_matrix_calloc (n1 n2 : Nat) : GslMatrix :=
  { size1 := n1, size2 := n2, tda := n2, data := List.replicate (n1 * n2) Double.zero }

/-- `gsl_vector_calloc(n)`: a zero-filled block of length `n` with stride 1. -/
def gsl_vector_calloc (n : Nat) : GslVector :=
  { size := n, stride := 1, data := List.replicate n Double.zero }

/-- The six robust regression types of GSL the routine selects from. -/
inductive RobustType
  | bisquare
  | cauchy
  | fair
  | huber
  | ols
  | welsch
deriving DecidableEq, Repr

/-- What the solver leaves behind: the status code of `gsl_multifit_robust`, the contents of
the coefficient vector `gslC`, and the fields of `gsl_multifit_robust_statistics(workspace)`
the routine reads. -/
structure FitResult where
  status : Int
  coef : Nat → Double
  adj_Rsq : Double
  numit : Int
  rmse : Double

/-- The external solver: `gsl_multifit_robust_alloc(regressionType, n, numParams)` followed by
`gsl_multifit_robust(gslX, gslY, gslC, gslCov, workspace)`. The regression type is `none` when
the routine's `switch` left the variable `regressionType` unassigned. -/
abbrev Solver := Option RobustType → GslMatrix → GslVector → FitResult

/-! ## Inputs, outputs and the ghost log -/

/-- The input arguments of `wrap_gsl_multifit_robust`. -/
structure Args where
  x : Nat → Double
  y : Nat → Double
  method : Int
  perPixelX : Int
  numRows : Nat
  numCols : Nat
  numImages : Nat
  numParams : Nat
  numRowsX : Nat
  numColsX : Nat
  nullVal : Double

/-- Ghost events: the pre-count of a pixel finished with value `n`; the solver was invoked for a
pixel on a design matrix and response vector. -/
inductive Event
  | counted (row col n : Nat)
  | solve (row col : Nat) (regressionType : Option RobustType) (gslX : GslMatrix)
      (gslY : GslVector)
deriving DecidableEq

/-- The output arrays `c`, `adj_Rsqrd`, `numIter`, `rmse`, and the ghost log. -/
structure State where
  c : Nat → Double
  adj_Rsqrd : Nat → Double
  numIter : Nat → Int
  rmse : Nat → Double
  log : List Event

/-! ## The routine -/

/-- The `switch (method)` of the routine; it has no `default` branch, so any other code leaves
`regressionType` unassigned. -/
def regressionTypeOf (method : Int) : Option RobustType :=
  if method = 1 then some RobustType.bisquare
  else if method = 2 then some RobustType.cauchy
  else if method = 3 then some RobustType.fair
  else if method = 4 then some RobustType.huber
  else if method = 5 then some RobustType.ols
  else if method = 6 then some RobustType.welsch
  else none

/-- The index expression `img*numRows*numCols+row*numCols+col` into `y`. -/
def yNdx (a : Args) (img row col : Nat) : Nat :=
  img * a.numRows * a.numCols + row * a.numCols + col

/-- The index expression into `x`, under the layout selected by `perPixelX`. -/
def xNdx (a : Args) (param img row col : Nat) : Nat :=
  if a.perPixelX = 0 then
    param * a.numImages + img
  else
    param * a.numRowsX * a.numColsX * a.numImages +
      img * a.numRowsX * a.numColsX + row * a.numColsX + col

/-- The index expression `param*numRows*numCols + row*numCols + col` into `c`. -/
def cNdx (a : Args) (param row col : Nat) : Nat :=
  param * a.numRows * a.numCols + row * a.numCols + col

/-- The index expression `row*numCols + col` into the statistics arrays. -/
def pixNdx (a : Args) (row col : Nat) : Nat :=
  row * a.numCols + col

/-- First pass over the images of a pixel: `n` counts the `y` values different from
`nullVal`. -/
def countNonNull (a : Args) (row col : Nat) : Nat :=
  (List.range a.numImages).foldl
    (fun n img => if Double.ne (a.y (yNdx a img row col)) a.nullVal then n + 1 else n) 0

/-- Loop state of the second pass: the running destination index `n` and the two containers. -/
structure Fill where
  n : Nat
  gslX : GslMatrix
  gslY : GslVector
deriving DecidableEq

/-- The inner `for (param...)` loop of the second pass: row `n` of `gslX` receives the `x`
values of image `img`. -/
def copyRow (a : Args) (row col img n : Nat) (gslX : GslMatrix) : GslMatrix :=
  (List.range a.numParams).foldl
    (fun m param =>
      { m with data := m.data.set (n * m.tda + param) (a.x (xNdx a param img row col)) })
    gslX

/-- One iteration of the second pass over the images. -/
def fillStep (a : Args) (row col : Nat) (s : Fill) (img : Nat) : Fill :=
  if Double.ne (a.y (yNdx a img row col)) a.nullVal then
    { n := s.n + 1
      gslX := copyRow a row col img s.n s.gslX
      gslY := { s.gslY with
        data := s.gslY.data.set (s.n * s.gslY.stride) (a.y (yNdx a img row col)) } }
  else s

/-- The second pass: containers sized by the pre-count `n`, destination index reset to 0, then
one `fillStep` per image in ascending order. -/
def fillSample (a : Args) (row col n : Nat) : Fill :=
  (List.range a.numImages).foldl (fillStep a row col)
    { n := 0, gslX := gsl_matrix_calloc n a.numParams, gslY := gsl_vector_calloc n }

/-- The solver's result for a pixel whose pre-count passed the gate. -/
def fitPixel (gsl : Solver) (a : Args) (row col : Nat) : FitResult :=
  let s := fillSample a row col (countNonNull a row col)
  gsl (regressionTypeOf a.method) s.gslX s.gslY

/-- The loop copying the coefficients of a successful fit into `c`. -/
def storeCoef (a : Args) (row col : Nat) (coef : Nat → Double) (c : Nat → Double) :
    Nat → Double :=
  (List.range a.numParams).foldl
    (fun c param => Function.update c (cNdx a param row col) (coef param)) c

/-- The body of the pixel loop. -/
def pixelBody (gsl : Solver) (a : Args) (row col : Nat) (st : State) : State :=
  let n := countNonNull a row col
  let st := { st with log := st.log ++ [Event.counted row col n] }
  if a.numParams ≤ n then
    let s := fillSample a row col n
    let r := gsl (regressionTypeOf a.method) s.gslX s.gslY
    let st := { st with
      log := st.log ++ [Event.solve row col (regressionTypeOf a.method) s.gslX s.gslY] }
    if r.status = 0 then
      { st with
        c := storeCoef a row col r.coef st.c
        adj_Rsqrd := Function.update st.adj_Rsqrd (pixNdx a row col) r.adj_Rsq
        numIter := Function.update st.numIter (pixNdx a row col) r.numit
        rmse := Function.update st.rmse (pixNdx a row col) r.rmse }
    else st
  else st

/-- The routine: the row and column loops around `pixelBody`, started on the caller's output
arrays and an empty log. -/
def wrap_gsl_multifit_robust (gsl : Solver) (a : Args)
    (c adj_Rsqrd : Nat → Double) (numIter : Nat → Int) (rmse : Nat → Double) : State :=
  (List.range a.numRows).foldl
    (fun st row => (List.range a.numCols).foldl (fun st col => pixelBody gsl a row col st) st)
    { c := c, adj_Rsqrd := adj_Rsqrd, numIter := numIter, rmse := rmse, log := [] }

/-! ## The sample in closed form -/

/-- The images of a pixel whose observation compares different from `nullVal`, ascending. -/
def validImages (a : Args) (row col : Nat) : List Nat :=
  (List.range a.numImages).filter
    (fun img => Double.ne (a.y (yNdx a img row col)) a.nullVal)

/-- The `x` values of image `img` at a pixel, one per parameter, under the active layout. -/
def xRow (a : Args) (row col img : Nat) : List Double :=
  (List.range a.numParams).map (fun param => a.x (xNdx a param img row col))

/-- The loop state of the second pass after the images `imgs` have been appended to containers
allocated for `N` rows: the rows written so far, followed by the untouched zero cells. -/
def sampleOf (a : Args) (row col N : Nat) (imgs : List Nat) : Fill :=
  { n := imgs.length
    gslX := ⟨N, a.numParams, a.numParams,
      (imgs.map (xRow a row col)).flatten
        ++ List.replicate ((N - imgs.length) * a.numParams) Double.zero⟩
    gslY := ⟨N, 1,
      imgs.map (fun img => a.y (yNdx a img row col))
        ++ List.replicate (N - imgs.length) Double.zero⟩ }

/-! ## Stores into a flat array -/

/-- A sequence of stores `arr[w.1] = w.2`, applied in order. -/
def applyWrites {β : Type} (ws : List (Nat × β)) (f : Nat → β) : Nat → β :=
  ws.foldl (fun f w => Function.update f w.1 w.2) f

/-! ## The pixel loop as a sequence of stores -/

/-- The pixels in the order the row and column loops visit them. -/
def pixelOrder (a : Args) : List (Nat × Nat) :=
  (List.range a.numRows).flatMap (fun row => (List.range a.numCols).map (fun col => (row, col)))

/-- The loop body run over a given sequence of pixels. -/
def runPixels (gsl : Solver) (a : Args) (ps : List (Nat × Nat)) (st : State) : State :=
  ps.foldl (fun st p => pixelBody gsl a p.1 p.2 st) st

/-- A pixel is fitted when its pre-count passes the gate and the solver reports success. -/
def fitted (gsl : Solver) (a : Args) (row col : Nat) : Prop :=
  a.numParams ≤ countNonNull a row col ∧ (fitPixel gsl a row col).status = 0

instance (gsl : Solver) (a : Args) (row col : Nat) : Decidable (fitted gsl a row col) := by
  unfold fitted; infer_instance

/-- The stores into `c` performed by the body at one pixel. -/
def cWrites (gsl : Solver) (a : Args) (p : Nat × Nat) : List (Nat × Double) :=
  if fitted gsl a p.1 p.2 then
    (List.range a.numParams).map
      (fun param => (cNdx a param p.1 p.2, (fitPixel gsl a p.1 p.2).coef param))
  else []

/-- The store into a statistics array performed by the body at one pixel, for the statistic
selected by `sel`. -/
def statWrites {β : Type} (sel : FitResult → β) (gsl : Solver) (a : Args) (p : Nat × Nat) :
    List (Nat × β) :=
  if fitted gsl a p.1 p.2 then [(pixNdx a p.1 p.2, sel (fitPixel gsl a p.1 p.2))] else []

/-- The events the body appends to the log at one pixel. -/
def pixelLog (a : Args) (p : Nat × Nat) : List Event :=
  Event.counted p.1 p.2 (countNonNull a p.1 p.2) ::
    (if a.numParams ≤ countNonNull a p.1 p.2 then
      [Event.solve p.1 p.2 (regressionTypeOf a.method)
        (fillSample a p.1 p.2 (countNonNull a p.1 p.2)).gslX
        (fillSample a p.1 p.2 (countNonNull a p.1 p.2)).gslY]
    else [])

/-! ## Example inputs -/

/-- A solver that always succeeds with coefficients `2.0`, adjusted R-squared `1.0`, three
iterations and RMSE `4.0`. -/
def okSolver : Solver :=
  fun _ _ _ => { status := 0, coef := fun _ => Double.two, adj_Rsq := Double.one, numit := 3,
                 rmse := Double.four }

/-- A flat array given by a list, zero beyond its end. -/
def ofList (l : List Double) : Nat → Double := fun i => l.getD i Double.zero

/-- A 1 x 2 grid of 3 images and 2 parameters with shared `x`; pixel (0,0) observes
`[1.0, null, 4.0]` and pixel (0,1) observes `[null, 2.0, null]`, the null value being
`-9999.0`. -/
def exArgs : Args :=
  { x := ofList [Double.one, Double.two, Double.four, Double.one, Double.one, Double.one]
    y := ofList [Double.one, Double.negNullSentinel, Double.negNullSentinel, Double.two,
                 Double.four, Double.negNullSentinel]
    method := 5, perPixelX := 0, numRows := 1, numCols := 2, numImages := 3, numParams := 2
    numRowsX := 1, numColsX := 2, nullVal := Double.negNullSentinel }

/-- Caller's pre-fill of the double-valued output arrays: NaN everywhere. -/
def nanFill : Nat → Double := fun _ => Double.nan

/-- Caller's pre-fill of `numIter`: -1 everywhere. -/
def iterFill : Nat → Int := fun _ => -1

/-! ## C6: the null comparison -/

/-- A 1 x 1 grid of 2 images and 1 parameter whose null value is NaN and whose first
observation is that same NaN. -/
def nanArgs : Args :=
  { x := ofList [Double.one, Double.one]
    y := ofList [Double.nan, Double.one]
    method := 5, perPixelX := 0, numRows := 1, numCols := 1, numImages := 2, numParams := 1
    numRowsX := 1, numColsX := 1, nullVal := Double.nan }

/-! ## C7: equivalence of the two layouts of `x` -/

/-- The rational value of a finite double (normal or subnormal); 0 for infinities and NaN. -/
def Double.toRat (d : Double) : ℚ :=
  if d.exponent.val = 2047 then 0
  else
    (if d.sign then -1 else 1) *
      (if d.exponent.val = 0 then (d.fraction.val : ℚ) * (2 : ℚ) ^ (-1074 : ℤ)
       else ((4503599627370496 + d.fraction.val : Nat) : ℚ)
              * (2 : ℚ) ^ ((d.exponent.val : ℤ) - 1075))

/-- The scenario: a 1 x 1 grid, 4 images, 1 parameter, shared `x = [1, 1, 1, 1]`,
`y = [1.0, 2.0, -9999.0, 4.0]` and `nullVal = -9999.0`, for a given method code. -/
def scenarioArgs (method : Int) : Args :=
  { x := ofList [Double.one, Double.one, Double.one, Double.one]
    y := ofList [Double.one, Double.two, Double.negNullSentinel, Double.four]
    method := method, perPixelX := 0, numRows := 1, numCols := 1, numImages := 4
    numParams := 1, numRowsX := 1, numColsX := 1, nullVal := Double.negNullSentinel }

/-! ## C13: the stores of the second pass -/

/-- Ghost record of the second pass: the loop state together with, in program order, the
destination row `n` of each appended image, the indices `n*stride` of `gslY->data` stored to
and the indices `n*tda + param` of `gslX->data` stored to. -/
structure FillTrace where
  fill : Fill
  rows : List Nat
  yStores : List Nat
  xStores : List Nat

/-- One iteration of the second pass, recording its stores; the loop state evolves by
`fillStep`. -/
def fillStepTraced (a : Args) (row col : Nat) (t : FillTrace) (img : Nat) : FillTrace :=
  if Double.ne (a.y (yNdx a img row col)) a.nullVal then
    { fill := fillStep a row col t.fill img
      rows := t.rows ++ [t.fill.n]
      yStores := t.yStores ++ [t.fill.n * t.fill.gslY.stride]
      xStores := t.xStores
        ++ (List.range a.numParams).map (fun param => t.fill.n * t.fill.gslX.tda + param) }
  else
    { fill := fillStep a row col t.fill img
      rows := t.rows, yStores := t.yStores, xStores := t.xStores }

/-- The second pass with its stores recorded, started as `fillSample` starts it. -/
def fillSampleTraced (a : Args) (row col n : Nat) : FillTrace :=
  (List.range a.numImages).foldl (fillStepTraced a row col)
    { fill := { n := 0, gslX := gsl_matrix_calloc n a.numParams, gslY := gsl_vector_calloc n }
      rows := [], yStores := [], xStores := [] }

/-- The loop state of the second pass after the images `imgs` have been appended to containers
of `N` rows whose cells not yet stored to hold `restX` and `restY`. -/
def sampleOfRest (a : Args) (row col N : Nat) (imgs : List Nat) (restX restY : List Double) :
    Fill :=
  { n := imgs.length
    gslX := ⟨N, a.numParams, a.numParams, (imgs.map (xRow a row col)).flatten ++ restX⟩
    gslY := ⟨N, 1, imgs.map (fun img => a.y (yNdx a img row col)) ++ restY⟩ }

/-! ## C15: pixels without any valid image -/

/-- The value a 32-bit two's-complement `int` holds for the mathematical result `z`. -/
def wrap32 (z : Int) : Int := (z + 2147483648) % 4294967296 - 2147483648

/-- Multiplication of two `int` values, wrapped to 32 bits. -/
def imul (x y : Int) : Int := wrap32 (x * y)

/-- Addition of two `int` values, wrapped to 32 bits. -/
def iadd (x y : Int) : Int := wrap32 (x + y)

/-- The expression `img*numRows*numCols+row*numCols+col` evaluated in `int`, left to right
with `*` binding tighter than `+`. -/
def yNdx32 (a : Args) (img row col : Nat) : Int :=
  iadd (iadd (imul (imul img a.numRows) a.numCols) (imul row a.numCols)) col

/-- The expression assigned to `xNdx`, evaluated in `int`. -/
def xNdx32 (a : Args) (param img row col : Nat) : Int :=
  if a.perPixelX = 0 then
    iadd (imul param a.numImages) img
  else
    iadd (iadd (iadd (imul (imul (imul param a.numRowsX) a.numColsX) a.numImages)
      (imul (imul img a.numRowsX) a.numColsX)) (imul row a.numColsX)) col

/-- The expression `row*numCols + col` assigned to `pixNdx`, evaluated in `int`. -/
def pixNdx32 (a : Args) (row col : Nat) : Int :=
  iadd (imul row a.numCols) col

/-- The expression `param*numRows*numCols + row*numCols + col` indexing `c`, evaluated in
`int`. -/
def cNdx32 (a : Args) (param row col : Nat) : Int :=
  iadd (iadd (imul (imul param a.numRows) a.numCols) (imul row a.numCols)) col

/-- The mathematical values of the intermediate products and sums of `yNdx`, in evaluation
order. -/
def yNdxSteps (a : Args) (img row col : Nat) : List Nat :=
  [img * a.numRows, img * a.numRows * a.numCols, row * a.numCols,
   img * a.numRows * a.numCols + row * a.numCols,
   img * a.numRows * a.numCols + row * a.numCols + col]

/-- The mathematical values of the intermediate products and sums of `xNdx`, in evaluation
order, under the layout selected by `perPixelX`. -/
def xNdxSteps (a : Args) (param img row col : Nat) : List Nat :=
  if a.perPixelX = 0 then
    [param * a.numImages, param * a.numImages + img]
  else
    [param * a.numRowsX, param * a.numRowsX * a.numColsX,
     param * a.numRowsX * a.numColsX * a.numImages,
     img * a.numRowsX, img * a.numRowsX * a.numColsX,
     param * a.numRowsX * a.numColsX * a.numImages + img * a.numRowsX * a.numColsX,
     row * a.numColsX,
     param * a.numRowsX * a.numColsX * a.numImages + img * a.numRowsX * a.numColsX
       + row * a.numColsX,
     param * a.numRowsX * a.numColsX * a.numImages + img * a.numRowsX * a.numColsX
       + row * a.numColsX + col]

/-- The mathematical values of the intermediate product and sum of `pixNdx`. -/
def pixNdxSteps (a : Args) (row col : Nat) : List Nat :=
  [row * a.numCols, row * a.numCols + col]

/-- The mathematical values of the intermediate products and sums of the index into `c`, in
evaluation order. -/
def cNdxSteps (a : Args) (param row col : Nat) : List Nat :=
  [param * a.numRows, param * a.numRows * a.numCols, row * a.numCols,
   param * a.numRows * a.numCols + row * a.numCols,
   param * a.numRows * a.numCols + row * a.numCols + col]

/-- Shared mode with 65536 parameters and 65536 images on a 1 x 1 grid: the products
`numImages*numRows*numCols` and `numParams*numRows*numCols` are 65536. -/
def wideArgs : Args :=
  { x := fun _ => Double.one
    y := fun _ => Double.one
    method := 5, perPixelX := 0, numRows := 1, numCols := 1, numImages := 65536
    numParams := 65536, numRowsX := 1, numColsX := 1, nullVal := Double.negNullSentinel }

/-! # Theorems -/

/-! ## The sample in closed form -/

theorem count_foldl_eq (p : Nat → Bool) (l : List Nat) (k : Nat) :
    l.foldl (fun n img => if p img then n + 1 else n) k = k + (l.filter p).length := by
  induction l generalizing k with
  | nil => simp
  | cons i l ih =>
    simp only [List.foldl_cons, List.filter_cons]
    by_cases h : p i = true
    · simp only [h, if_true, ih, List.length_cons]; omega
    · simp only [h, if_false, ih]; simp

theorem countNonNull_eq (a : Args) (row col : Nat) :
    countNonNull a row col = (validImages a row col).length := by
  unfold countNonNull validImages
  rw [count_foldl_eq (fun img => Double.ne (a.y (yNdx a img row col)) a.nullVal)]
  simp

theorem set_run (f : Nat → Double) (A Z C : List Double) (q : Nat) (hq : q ≤ Z.length) :
    (List.range q).foldl (fun d j => d.set (A.length + j) (f j)) (A ++ Z ++ C)
      = A ++ (List.range q).map f ++ Z.drop q ++ C := by
  induction q with
  | zero => simp
  | succ q ih =>
    rw [List.range_succ, List.foldl_append, ih (by omega)]
    simp only [List.foldl_cons, List.foldl_nil, List.map_append, List.map_cons, List.map_nil]
    have hz : Z.drop q = Z[q] :: Z.drop (q + 1) := List.drop_eq_getElem_cons (by omega)
    have hlt : q < Z.length := by omega
    simp only [List.set_append, List.append_assoc, List.length_append, List.length_map,
      List.length_range, List.length_drop]
    simp only [Nat.lt_irrefl, if_false, Nat.sub_self, Nat.add_sub_cancel_left,
      Nat.sub_pos_of_lt hlt, if_true, hz, List.set_cons_zero, List.cons_append,
      List.nil_append, List.append_assoc]
    rw [if_neg (by omega)]

theorem copyRow_fold (f : Nat → Double) (n : Nat) (l : List Nat) (m : GslMatrix) :
    l.foldl (fun m param => { m with data := m.data.set (n * m.tda + param) (f param) }) m
      = { m with data := l.foldl (fun d param => d.set (n * m.tda + param) (f param)) m.data } := by
  induction l generalizing m with
  | nil => rfl
  | cons p l ih => simp only [List.foldl_cons]; rw [ih]

theorem copyRow_eq (a : Args) (row col img n N : Nat) (A Z C : List Double)
    (hA : A.length = n * a.numParams) (hZ : Z.length = a.numParams) :
    copyRow a row col img n ⟨N, a.numParams, a.numParams, A ++ Z ++ C⟩
      = ⟨N, a.numParams, a.numParams, A ++ xRow a row col img ++ C⟩ := by
  unfold copyRow
  rw [copyRow_fold (fun param => a.x (xNdx a param img row col))]
  simp only [← hA]
  rw [set_run _ A Z C a.numParams (by omega)]
  simp [xRow, ← hZ]

theorem xRow_length (a : Args) (row col img : Nat) :
    (xRow a row col img).length = a.numParams := by
  simp [xRow]

theorem rows_length (a : Args) (row col : Nat) (imgs : List Nat) :
    ((imgs.map (xRow a row col)).flatten).length = imgs.length * a.numParams := by
  induction imgs with
  | nil => simp
  | cons i l ih =>
    simp only [List.map_cons, List.flatten_cons, List.length_append, ih, xRow_length,
      List.length_cons]
    rw [Nat.succ_mul]; omega

theorem fillStep_valid (a : Args) (row col N img : Nat) (imgs : List Nat)
    (hN : imgs.length < N)
    (hv : Double.ne (a.y (yNdx a img row col)) a.nullVal = true) :
    fillStep a row col (sampleOf a row col N imgs) img
      = sampleOf a row col N (imgs ++ [img]) := by
  have hX : List.replicate ((N - imgs.length) * a.numParams) Double.zero
      = List.replicate a.numParams Double.zero
        ++ List.replicate ((N - (imgs.length + 1)) * a.numParams) Double.zero := by
    rw [← List.replicate_add]
    congr 1
    have : N - imgs.length = (N - (imgs.length + 1)) + 1 := by omega
    rw [this, Nat.succ_mul]
    omega
  have hY : List.replicate (N - imgs.length) Double.zero
      = Double.zero :: List.replicate (N - (imgs.length + 1)) Double.zero := by
    have : N - imgs.length = (N - (imgs.length + 1)) + 1 := by omega
    rw [this, List.replicate_succ]
  unfold fillStep
  rw [if_pos hv]
  simp only [sampleOf, List.length_append, List.length_singleton, List.map_append,
    List.map_cons, List.map_nil, List.flatten_append, List.flatten_cons, List.flatten_nil,
    List.append_nil, hX, hY]
  congr 1
  · rw [← List.append_assoc]
    exact copyRow_eq a row col img imgs.length N _ _ _ (rows_length a row col imgs) (by simp)
  · simp [List.set_append]

theorem fill_fold (a : Args) (row col N : Nat) (l imgs : List Nat)
    (hN : imgs.length
      + (l.filter (fun img => Double.ne (a.y (yNdx a img row col)) a.nullVal)).length ≤ N) :
    l.foldl (fillStep a row col) (sampleOf a row col N imgs)
      = sampleOf a row col N
          (imgs ++ l.filter (fun img => Double.ne (a.y (yNdx a img row col)) a.nullVal)) := by
  induction l generalizing imgs with
  | nil => simp
  | cons i l ih =>
    simp only [List.foldl_cons, List.filter_cons] at hN ⊢
    by_cases hv : Double.ne (a.y (yNdx a i row col)) a.nullVal = true
    · simp only [hv, if_true, List.length_cons] at hN ⊢
      rw [fillStep_valid a row col N i imgs (by omega) hv, ih (imgs ++ [i]) (by simp; omega)]
      simp
    · simp only [hv, Bool.false_eq_true, if_false] at hN ⊢
      have : fillStep a row col (sampleOf a row col N imgs) i = sampleOf a row col N imgs := by
        unfold fillStep; rw [if_neg hv]
      rw [this, ih imgs hN]

/-- The second pass, run on containers sized by the pre-count, yields exactly the compaction
of the valid images: `n` rows, row `k` holding the `x` values of the `k`-th valid image, and
response entry `k` its `y` value. -/
theorem fillSample_eq (a : Args) (row col : Nat) :
    fillSample a row col (countNonNull a row col)
      = { n := (validImages a row col).length
          gslX := ⟨(validImages a row col).length, a.numParams, a.numParams,
            ((validImages a row col).map (xRow a row col)).flatten⟩
          gslY := ⟨(validImages a row col).length, 1,
            (validImages a row col).map (fun img => a.y (yNdx a img row col))⟩ } := by
  have h0 : (⟨0, gsl_matrix_calloc (countNonNull a row col) a.numParams,
      gsl_vector_calloc (countNonNull a row col)⟩ : Fill)
      = sampleOf a row col (countNonNull a row col) [] := by
    simp [sampleOf, gsl_matrix_calloc, gsl_vector_calloc]
  unfold fillSample
  rw [h0, fill_fold a row col _ _ [] (by rw [countNonNull_eq]; simp [validImages])]
  simp [sampleOf, countNonNull_eq, validImages]

/-! ## Stores into a flat array -/

theorem applyWrites_append {β : Type} (ws ws' : List (Nat × β)) (f : Nat → β) :
    applyWrites (ws ++ ws') f = applyWrites ws' (applyWrites ws f) := by
  simp [applyWrites, List.foldl_append]

theorem applyWrites_untouched {β : Type} (ws : List (Nat × β)) (f : Nat → β) (k : Nat)
    (hk : ∀ w ∈ ws, k ≠ w.1) : applyWrites ws f k = f k := by
  induction ws generalizing f with
  | nil => rfl
  | cons w ws ih =>
    have h1 : applyWrites (w :: ws) f = applyWrites ws (Function.update f w.1 w.2) := rfl
    rw [h1, ih _ (fun w' hw' => hk w' (List.mem_cons_of_mem _ hw'))]
    exact Function.update_noteq (hk w (List.mem_cons_self _ _)) _ _

theorem applyWrites_written {β : Type} (ws : List (Nat × β)) (f : Nat → β)
    (hc : ∀ w ∈ ws, ∀ w' ∈ ws, w.1 = w'.1 → w.2 = w'.2) (w : Nat × β) (hw : w ∈ ws) :
    applyWrites ws f w.1 = w.2 := by
  induction ws generalizing f w with
  | nil => cases hw
  | cons w0 ws ih =>
    have h1 : applyWrites (w0 :: ws) f = applyWrites ws (Function.update f w0.1 w0.2) := rfl
    rw [h1]
    by_cases hex : ∃ w' ∈ ws, w'.1 = w.1
    · obtain ⟨w', hw', he⟩ := hex
      have hv : w'.2 = w.2 :=
        hc w' (List.mem_cons_of_mem _ hw') w hw he
      rw [← he, ← hv]
      exact ih _ (fun u hu v hv => hc u (List.mem_cons_of_mem _ hu) v (List.mem_cons_of_mem _ hv))
        w' hw'
    · have hne : ∀ w' ∈ ws, w.1 ≠ w'.1 := fun w' hw' he => hex ⟨w', hw', he.symm⟩
      rw [applyWrites_untouched ws _ w.1 hne]
      rcases List.mem_cons.mp hw with h | h
      · rw [h]; exact Function.update_same _ _ _
      · exact absurd rfl (hne w h)

/-! ## Offsets -/

theorem mul_add_inj (n q r q' r' : Nat) (hr : r < n) (hr' : r' < n)
    (h : q * n + r = q' * n + r') : q = q' ∧ r = r' := by
  have hn : 0 < n := by omega
  have h1 : (q * n + r) / n = q := by
    rw [Nat.add_comm, Nat.add_mul_div_right _ _ hn, Nat.div_eq_of_lt hr]; simp
  have h2 : (q' * n + r') / n = q' := by
    rw [Nat.add_comm, Nat.add_mul_div_right _ _ hn, Nat.div_eq_of_lt hr']; simp
  have hq : q = q' := by rw [← h1, ← h2, h]
  subst hq
  exact ⟨rfl, by omega⟩

theorem pix_lt (R C row col : Nat) (hr : row < R) (hc : col < C) : row * C + col < R * C := by
  have : (row + 1) * C ≤ R * C := Nat.mul_le_mul_right C hr
  rw [Nat.succ_mul] at this
  omega

theorem pixNdx_inj (a : Args) (row col row' col' : Nat) (hc : col < a.numCols)
    (hc' : col' < a.numCols) (h : pixNdx a row col = pixNdx a row' col') :
    row = row' ∧ col = col' :=
  mul_add_inj a.numCols row col row' col' hc hc' h

theorem cNdx_inj (a : Args) (param row col param' row' col' : Nat)
    (hr : row < a.numRows) (hc : col < a.numCols)
    (hr' : row' < a.numRows) (hc' : col' < a.numCols)
    (h : cNdx a param row col = cNdx a param' row' col') :
    param = param' ∧ row = row' ∧ col = col' := by
  unfold cNdx at h
  have h' : param * (a.numRows * a.numCols) + (row * a.numCols + col)
      = param' * (a.numRows * a.numCols) + (row' * a.numCols + col') := by
    rw [← Nat.mul_assoc, ← Nat.mul_assoc]; omega
  obtain ⟨hp, hw⟩ := mul_add_inj _ _ _ _ _ (pix_lt _ _ _ _ hr hc) (pix_lt _ _ _ _ hr' hc') h'
  exact ⟨hp, mul_add_inj a.numCols row col row' col' hc hc' hw⟩

/-! ## The pixel loop as a sequence of stores -/

theorem storeCoef_eq (a : Args) (row col : Nat) (coef c : Nat → Double) :
    storeCoef a row col coef c
      = applyWrites ((List.range a.numParams).map
          (fun param => (cNdx a param row col, coef param))) c := by
  simp [storeCoef, applyWrites, List.foldl_map]

theorem pixelBody_eq (gsl : Solver) (a : Args) (row col : Nat) (st : State) :
    pixelBody gsl a row col st
      = { c := applyWrites (cWrites gsl a (row, col)) st.c
          adj_Rsqrd := applyWrites (statWrites FitResult.adj_Rsq gsl a (row, col)) st.adj_Rsqrd
          numIter := applyWrites (statWrites FitResult.numit gsl a (row, col)) st.numIter
          rmse := applyWrites (statWrites FitResult.rmse gsl a (row, col)) st.rmse
          log := st.log ++ pixelLog a (row, col) } := by
  unfold pixelBody
  by_cases hg : a.numParams ≤ countNonNull a row col
  · by_cases hs : (fitPixel gsl a row col).status = 0
    · have hf : fitted gsl a row col := ⟨hg, hs⟩
      have hs' := hs
      unfold fitPixel at hs'
      simp only [hg, hs', if_true, cWrites, statWrites, hf, pixelLog, storeCoef_eq, fitPixel,
        applyWrites, List.foldl_cons, List.foldl_nil, List.append_assoc, List.singleton_append]
    · have hf : ¬ fitted gsl a row col := fun h => hs h.2
      have hs' := hs
      unfold fitPixel at hs'
      simp only [hg, hs', if_true, if_false, cWrites, statWrites, hf, pixelLog, applyWrites,
        List.foldl_nil, List.append_assoc, List.singleton_append]
  · have hf : ¬ fitted gsl a row col := fun h => hg h.1
    simp only [hg, if_false, cWrites, statWrites, hf, pixelLog, applyWrites, List.foldl_nil]

theorem runPixels_eq (gsl : Solver) (a : Args) (ps : List (Nat × Nat)) (st : State) :
    runPixels gsl a ps st
      = { c := applyWrites (ps.flatMap (cWrites gsl a)) st.c
          adj_Rsqrd :=
            applyWrites (ps.flatMap (statWrites FitResult.adj_Rsq gsl a)) st.adj_Rsqrd
          numIter := applyWrites (ps.flatMap (statWrites FitResult.numit gsl a)) st.numIter
          rmse := applyWrites (ps.flatMap (statWrites FitResult.rmse gsl a)) st.rmse
          log := st.log ++ ps.flatMap (pixelLog a) } := by
  induction ps generalizing st with
  | nil => simp [runPixels, applyWrites]
  | cons p ps ih =>
    have h1 : runPixels gsl a (p :: ps) st = runPixels gsl a ps (pixelBody gsl a p.1 p.2 st) :=
      rfl
    rw [h1, ih, pixelBody_eq]
    simp only [List.flatMap_cons, applyWrites_append, List.append_assoc]

theorem foldl_flatMap_eq {α β γ : Type} (f : γ → β → γ) (g : α → List β) (l : List α)
    (init : γ) :
    (l.flatMap g).foldl f init = l.foldl (fun s x => (g x).foldl f s) init := by
  induction l generalizing init with
  | nil => rfl
  | cons x l ih => simp only [List.flatMap_cons, List.foldl_append, List.foldl_cons, ih]

theorem wrap_eq_runPixels (gsl : Solver) (a : Args) (c adj_Rsqrd : Nat → Double)
    (numIter : Nat → Int) (rmse : Nat → Double) :
    wrap_gsl_multifit_robust gsl a c adj_Rsqrd numIter rmse
      = runPixels gsl a (pixelOrder a) ⟨c, adj_Rsqrd, numIter, rmse, []⟩ := by
  unfold wrap_gsl_multifit_robust runPixels pixelOrder
  rw [foldl_flatMap_eq]
  simp only [List.foldl_map]

theorem mem_pixelOrder (a : Args) (p : Nat × Nat) :
    p ∈ pixelOrder a ↔ p.1 < a.numRows ∧ p.2 < a.numCols := by
  obtain ⟨r, c⟩ := p
  simp only [pixelOrder, List.mem_flatMap, List.mem_range, List.mem_map, Prod.mk.injEq]
  constructor
  · rintro ⟨r', hr', c', hc', h1, h2⟩
    subst h1; subst h2; exact ⟨hr', hc'⟩
  · rintro ⟨hr, hc⟩
    exact ⟨r, hr, c, hc, rfl, rfl⟩

/-! ## Final contents of the output arrays -/

theorem mem_cWrites (gsl : Solver) (a : Args) (p : Nat × Nat) (w : Nat × Double) :
    w ∈ cWrites gsl a p ↔ fitted gsl a p.1 p.2 ∧ ∃ param, param < a.numParams ∧
      w = (cNdx a param p.1 p.2, (fitPixel gsl a p.1 p.2).coef param) := by
  unfold cWrites
  by_cases hf : fitted gsl a p.1 p.2
  · simp only [hf, if_true, List.mem_map, List.mem_range, true_and]
    constructor
    · rintro ⟨param, hp, rfl⟩; exact ⟨param, hp, rfl⟩
    · rintro ⟨param, hp, rfl⟩; exact ⟨param, hp, rfl⟩
  · simp [hf]

theorem mem_statWrites {β : Type} (sel : FitResult → β) (gsl : Solver) (a : Args)
    (p : Nat × Nat) (w : Nat × β) :
    w ∈ statWrites sel gsl a p ↔ fitted gsl a p.1 p.2 ∧
      w = (pixNdx a p.1 p.2, sel (fitPixel gsl a p.1 p.2)) := by
  unfold statWrites
  by_cases hf : fitted gsl a p.1 p.2
  · simp [hf]
  · simp [hf]

theorem c_written (gsl : Solver) (a : Args) (f : Nat → Double) (row col param : Nat)
    (hr : row < a.numRows) (hc : col < a.numCols) (hp : param < a.numParams)
    (hf : fitted gsl a row col) :
    applyWrites ((pixelOrder a).flatMap (cWrites gsl a)) f (cNdx a param row col)
      = (fitPixel gsl a row col).coef param := by
  have hcons : ∀ w ∈ (pixelOrder a).flatMap (cWrites gsl a),
      ∀ w' ∈ (pixelOrder a).flatMap (cWrites gsl a), w.1 = w'.1 → w.2 = w'.2 := by
    intro w hw w' hw' he
    obtain ⟨p, hpm, hwp⟩ := List.mem_flatMap.mp hw
    obtain ⟨p', hpm', hwp'⟩ := List.mem_flatMap.mp hw'
    obtain ⟨_, q, _, rfl⟩ := (mem_cWrites gsl a p w).mp hwp
    obtain ⟨_, q', _, rfl⟩ := (mem_cWrites gsl a p' w').mp hwp'
    have hin := (mem_pixelOrder a p).mp hpm
    have hin' := (mem_pixelOrder a p').mp hpm'
    obtain ⟨h1, h2, h3⟩ := cNdx_inj a q p.1 p.2 q' p'.1 p'.2 hin.1 hin.2 hin'.1 hin'.2 he
    have : p = p' := Prod.ext h2 h3
    subst this; subst h1; rfl
  have hmem : (cNdx a param row col, (fitPixel gsl a row col).coef param)
      ∈ (pixelOrder a).flatMap (cWrites gsl a) :=
    List.mem_flatMap.mpr ⟨(row, col), (mem_pixelOrder a (row, col)).mpr ⟨hr, hc⟩,
      (mem_cWrites gsl a (row, col) _).mpr ⟨hf, param, hp, rfl⟩⟩
  exact applyWrites_written _ f hcons _ hmem

theorem c_untouched (gsl : Solver) (a : Args) (f : Nat → Double) (k : Nat)
    (hk : ∀ row col param, row < a.numRows → col < a.numCols → param < a.numParams →
      fitted gsl a row col → k ≠ cNdx a param row col) :
    applyWrites ((pixelOrder a).flatMap (cWrites gsl a)) f k = f k := by
  apply applyWrites_untouched
  intro w hw
  obtain ⟨p, hpm, hwp⟩ := List.mem_flatMap.mp hw
  obtain ⟨hf, q, hq, rfl⟩ := (mem_cWrites gsl a p w).mp hwp
  have hin := (mem_pixelOrder a p).mp hpm
  exact hk p.1 p.2 q hin.1 hin.2 hq hf

theorem stat_written {β : Type} (sel : FitResult → β) (gsl : Solver) (a : Args) (f : Nat → β)
    (row col : Nat) (hr : row < a.numRows) (hc : col < a.numCols)
    (hf : fitted gsl a row col) :
    applyWrites ((pixelOrder a).flatMap (statWrites sel gsl a)) f (pixNdx a row col)
      = sel (fitPixel gsl a row col) := by
  have hcons : ∀ w ∈ (pixelOrder a).flatMap (statWrites sel gsl a),
      ∀ w' ∈ (pixelOrder a).flatMap (statWrites sel gsl a), w.1 = w'.1 → w.2 = w'.2 := by
    intro w hw w' hw' he
    obtain ⟨p, hpm, hwp⟩ := List.mem_flatMap.mp hw
    obtain ⟨p', hpm', hwp'⟩ := List.mem_flatMap.mp hw'
    obtain ⟨_, rfl⟩ := (mem_statWrites sel gsl a p w).mp hwp
    obtain ⟨_, rfl⟩ := (mem_statWrites sel gsl a p' w').mp hwp'
    have hin := (mem_pixelOrder a p).mp hpm
    have hin' := (mem_pixelOrder a p').mp hpm'
    obtain ⟨h2, h3⟩ := pixNdx_inj a p.1 p.2 p'.1 p'.2 hin.2 hin'.2 he
    have : p = p' := Prod.ext h2 h3
    subst this; rfl
  have hmem : (pixNdx a row col, sel (fitPixel gsl a row col))
      ∈ (pixelOrder a).flatMap (statWrites sel gsl a) :=
    List.mem_flatMap.mpr ⟨(row, col), (mem_pixelOrder a (row, col)).mpr ⟨hr, hc⟩,
      (mem_statWrites sel gsl a (row, col) _).mpr ⟨hf, rfl⟩⟩
  exact applyWrites_written _ f hcons _ hmem

theorem stat_untouched {β : Type} (sel : FitResult → β) (gsl : Solver) (a : Args)
    (f : Nat → β) (k : Nat)
    (hk : ∀ row col, row < a.numRows → col < a.numCols →
      fitted gsl a row col → k ≠ pixNdx a row col) :
    applyWrites ((pixelOrder a).flatMap (statWrites sel gsl a)) f k = f k := by
  apply applyWrites_untouched
  intro w hw
  obtain ⟨p, hpm, hwp⟩ := List.mem_flatMap.mp hw
  obtain ⟨hf, rfl⟩ := (mem_statWrites sel gsl a p w).mp hwp
  have hin := (mem_pixelOrder a p).mp hpm
  exact hk p.1 p.2 hin.1 hin.2 hf

/-- The routine's final state: each output array is the caller's array with the stores of the
fitted pixels applied, and the log lists the events of the pixels in loop order. -/
theorem wrap_eq (gsl : Solver) (a : Args) (c adj_Rsqrd : Nat → Double)
    (numIter : Nat → Int) (rmse : Nat → Double) :
    wrap_gsl_multifit_robust gsl a c adj_Rsqrd numIter rmse
      = { c := applyWrites ((pixelOrder a).flatMap (cWrites gsl a)) c
          adj_Rsqrd :=
            applyWrites ((pixelOrder a).flatMap (statWrites FitResult.adj_Rsq gsl a)) adj_Rsqrd
          numIter :=
            applyWrites ((pixelOrder a).flatMap (statWrites FitResult.numit gsl a)) numIter
          rmse := applyWrites ((pixelOrder a).flatMap (statWrites FitResult.rmse gsl a)) rmse
          log := (pixelOrder a).flatMap (pixelLog a) } := by
  rw [wrap_eq_runPixels, runPixels_eq]
  simp

theorem mem_log (gsl : Solver) (a : Args) (c adj_Rsqrd : Nat → Double)
    (numIter : Nat → Int) (rmse : Nat → Double) (e : Event) :
    e ∈ (wrap_gsl_multifit_robust gsl a c adj_Rsqrd numIter rmse).log ↔
      ∃ row col, row < a.numRows ∧ col < a.numCols ∧ e ∈ pixelLog a (row, col) := by
  rw [wrap_eq]
  simp only [List.mem_flatMap]
  constructor
  · rintro ⟨p, hp, he⟩
    exact ⟨p.1, p.2, ((mem_pixelOrder a p).mp hp).1, ((mem_pixelOrder a p).mp hp).2, he⟩
  · rintro ⟨row, col, hr, hc, he⟩
    exact ⟨(row, col), (mem_pixelOrder a (row, col)).mpr ⟨hr, hc⟩, he⟩

/-! ## C1 -/

theorem unfitted_c_cell (gsl : Solver) (a : Args) (f : Nat → Double) (row col param : Nat)
    (hr : row < a.numRows) (hc : col < a.numCols) (hf : ¬ fitted gsl a row col) :
    applyWrites ((pixelOrder a).flatMap (cWrites gsl a)) f (cNdx a param row col)
      = f (cNdx a param row col) := by
  apply c_untouched
  intro row' col' param' hr' hc' _ hf' he
  obtain ⟨_, h2, h3⟩ := cNdx_inj a param row col param' row' col' hr hc hr' hc' he
  subst h2; subst h3
  exact hf hf'

theorem unfitted_stat_cell {β : Type} (sel : FitResult → β) (gsl : Solver) (a : Args)
    (f : Nat → β) (row col : Nat) (hc : col < a.numCols) (hf : ¬ fitted gsl a row col) :
    applyWrites ((pixelOrder a).flatMap (statWrites sel gsl a)) f (pixNdx a row col)
      = f (pixNdx a row col) := by
  apply stat_untouched
  intro row' col' _ hc' hf' he
  obtain ⟨h2, h3⟩ := pixNdx_inj a row col row' col' hc hc' he
  subst h2; subst h3
  exact hf hf'

/-- C5: the solver is invoked for a pixel exactly when the pixel lies in the grid and its
pre-count `n` of non-null images satisfies `n >= numParams`; the pre-count recorded for the
pixel is that `n`; a pixel with `n = numParams` reaches the solver and no pixel with
`n < numParams` does. -/
theorem solver_invoked_iff_gate (gsl : Solver) (a : Args) (c adj_Rsqrd : Nat → Double)
    (numIter : Nat → Int) (rmse : Nat → Double) (row col : Nat) :
    ((∃ ty X Y, Event.solve row col ty X Y
        ∈ (wrap_gsl_multifit_robust gsl a c adj_Rsqrd numIter rmse).log) ↔
      (row < a.numRows ∧ col < a.numCols ∧ a.numParams ≤ countNonNull a row col)) ∧
    (∀ n, Event.counted row col n
        ∈ (wrap_gsl_multifit_robust gsl a c adj_Rsqrd numIter rmse).log ↔
      (row < a.numRows ∧ col < a.numCols ∧ n = countNonNull a row col)) ∧
    (row < a.numRows → col < a.numCols → countNonNull a row col = a.numParams →
      ∃ ty X Y, Event.solve row col ty X Y
        ∈ (wrap_gsl_multifit_robust gsl a c adj_Rsqrd numIter rmse).log) ∧
    (countNonNull a row col < a.numParams →
      ¬ ∃ ty X Y, Event.solve row col ty X Y
        ∈ (wrap_gsl_multifit_robust gsl a c adj_Rsqrd numIter rmse).log) := by
  have h1 : (∃ ty X Y, Event.solve row col ty X Y
        ∈ (wrap_gsl_multifit_robust gsl a c adj_Rsqrd numIter rmse).log) ↔
      (row < a.numRows ∧ col < a.numCols ∧ a.numParams ≤ countNonNull a row col) := by
    constructor
    · rintro ⟨ty, X, Y, h⟩
      rw [mem_log] at h
      obtain ⟨r', c', hr', hc', h⟩ := h
      simp only [pixelLog, List.mem_cons, reduceCtorEq, false_or] at h
      by_cases hg' : a.numParams ≤ countNonNull a r' c'
      · simp only [hg', if_true, List.mem_singleton, Event.solve.injEq] at h
        obtain ⟨e1, e2, _⟩ := h
        subst e1; subst e2
        exact ⟨hr', hc', hg'⟩
      · simp [hg'] at h
    · rintro ⟨hr, hc, hg⟩
      refine ⟨regressionTypeOf a.method,
        (fillSample a row col (countNonNull a row col)).gslX,
        (fillSample a row col (countNonNull a row col)).gslY,
        (mem_log gsl a c adj_Rsqrd numIter rmse _).mpr ⟨row, col, hr, hc, ?_⟩⟩
      simp [pixelLog, hg]
  refine ⟨h1, ?_, fun hr hc he => h1.mpr ⟨hr, hc, by omega⟩,
    fun hlt hex => absurd (h1.mp hex).2.2 (by omega)⟩
  intro n
  rw [mem_log]
  constructor
  · rintro ⟨r', c', hr', hc', h⟩
    simp only [pixelLog, List.mem_cons, Event.counted.injEq] at h
    rcases h with ⟨e1, e2, e3⟩ | h
    · subst e1; subst e2; exact ⟨hr', hc', e3⟩
    · by_cases hg' : a.numParams ≤ countNonNull a r' c'
      · simp [hg'] at h
      · simp [hg'] at h
  · rintro ⟨hr, hc, rfl⟩
    exact ⟨row, col, hr, hc, by simp [pixelLog]⟩

theorem solver_invoked_iff_gate_witness :
    (0 < exArgs.numRows ∧ 0 < exArgs.numCols ∧ countNonNull exArgs 0 0 = exArgs.numParams) ∧
    ∃ ty X Y, Event.solve 0 0 ty X Y
      ∈ (wrap_gsl_multifit_robust okSolver exArgs nanFill nanFill iterFill nanFill).log :=
  ⟨⟨by decide, by decide, by decide⟩,
    (solver_invoked_iff_gate okSolver exArgs nanFill nanFill iterFill nanFill 0 0).2.2.1
      (by decide) (by decide) (by decide)⟩

/-! ## C6: the null comparison -/

/-- C6 (evaluation at the failing input): with `nullVal` a NaN and the first observation of
the pixel that very NaN, the comparison `y[yNdx] != nullVal` is true, so the observation is
counted, copied into the response vector and handed to the solver instead of being
excluded. -/
theorem nan_null_value_not_excluded :
    nanArgs.y (yNdx nanArgs 0 0 0) = nanArgs.nullVal ∧
    Double.ne (nanArgs.y (yNdx nanArgs 0 0 0)) nanArgs.nullVal = true ∧
    countNonNull nanArgs 0 0 = 2 ∧
    (fillSample nanArgs 0 0 (countNonNull nanArgs 0 0)).gslY.data = [Double.nan, Double.one] ∧
    Event.solve 0 0 (some RobustType.ols) ⟨2, 1, 1, [Double.one, Double.one]⟩
        ⟨2, 1, [Double.nan, Double.one]⟩
      ∈ (wrap_gsl_multifit_robust okSolver nanArgs nanFill nanFill iterFill nanFill).log := by
  decide

/-- For a null value that is not NaN, an observation is excluded exactly when it compares
equal to the null value in the sense of C, that is when the two bit patterns coincide or both
are zeros (of either sign). -/
theorem ne_false_iff (v nullVal : Double) (hn : nullVal.isNaN = false) :
    Double.ne v nullVal = false ↔ (v = nullVal ∨ (v.isZero = true ∧ nullVal.isZero = true)) := by
  unfold Double.ne Double.eq
  by_cases hv : v.isNaN = true
  · have hne : v ≠ nullVal := fun h => by rw [h, hn] at hv; exact Bool.false_ne_true hv
    have hz : v.isZero = false := by
      unfold Double.isNaN at hv
      unfold Double.isZero
      simp only [Bool.and_eq_true, beq_iff_eq] at hv
      simp [hv.1]
    simp [hv, hne, hz]
  · simp only [Bool.not_eq_true] at hv
    simp only [hv, hn, Bool.not_false, Bool.true_and, Bool.not_eq_false', Bool.or_eq_true,
      Bool.and_eq_true, decide_eq_true_eq]
    tauto

/-! ## Dependence of a pixel's outcome on its sample -/

theorem fillSample_n (a : Args) (row col : Nat) :
    (fillSample a row col (countNonNull a row col)).n = countNonNull a row col := by
  rw [fillSample_eq, countNonNull_eq]

theorem final_c_cell (gsl : Solver) (a : Args) (c adj_Rsqrd : Nat → Double)
    (numIter : Nat → Int) (rmse : Nat → Double) (row col param : Nat)
    (hr : row < a.numRows) (hc : col < a.numCols) (hp : param < a.numParams) :
    (wrap_gsl_multifit_robust gsl a c adj_Rsqrd numIter rmse).c (cNdx a param row col)
      = if fitted gsl a row col then (fitPixel gsl a row col).coef param
        else c (cNdx a param row col) := by
  rw [wrap_eq]
  by_cases hf : fitted gsl a row col
  · rw [if_pos hf]; exact c_written gsl a c row col param hr hc hp hf
  · rw [if_neg hf]; exact unfitted_c_cell gsl a c row col param hr hc hf

theorem final_stat_cell {β : Type} (sel : FitResult → β) (gsl : Solver) (a : Args)
    (f : Nat → β) (row col : Nat) (hr : row < a.numRows) (hc : col < a.numCols) :
    applyWrites ((pixelOrder a).flatMap (statWrites sel gsl a)) f (pixNdx a row col)
      = if fitted gsl a row col then sel (fitPixel gsl a row col)
        else f (pixNdx a row col) := by
  by_cases hf : fitted gsl a row col
  · rw [if_pos hf]; exact stat_written sel gsl a f row col hr hc hf
  · rw [if_neg hf]; exact unfitted_stat_cell sel gsl a f row col hc hf

theorem solve_mem_log (gsl : Solver) (a : Args) (c adj_Rsqrd : Nat → Double)
    (numIter : Nat → Int) (rmse : Nat → Double) (row col : Nat) (ty : Option RobustType)
    (X : GslMatrix) (Y : GslVector) :
    Event.solve row col ty X Y
        ∈ (wrap_gsl_multifit_robust gsl a c adj_Rsqrd numIter rmse).log ↔
      (row < a.numRows ∧ col < a.numCols ∧ a.numParams ≤ countNonNull a row col ∧
        ty = regressionTypeOf a.method ∧
        X = (fillSample a row col (countNonNull a row col)).gslX ∧
        Y = (fillSample a row col (countNonNull a row col)).gslY) := by
  rw [mem_log]
  constructor
  · rintro ⟨r', c', hr', hc', h⟩
    simp only [pixelLog, List.mem_cons, reduceCtorEq, false_or] at h
    by_cases hg' : a.numParams ≤ countNonNull a r' c'
    · simp only [hg', if_true, List.mem_singleton, Event.solve.injEq] at h
      obtain ⟨e1, e2, e3, e4, e5⟩ := h
      subst e1; subst e2
      exact ⟨hr', hc', hg', e3, e4, e5⟩
    · simp [hg'] at h
  · rintro ⟨hr, hc, hg, rfl, rfl, rfl⟩
    exact ⟨row, col, hr, hc, by simp [pixelLog, hg]⟩

theorem mul_add_lt (n q r Q : Nat) (hq : q < Q) (hr : r < n) : q * n + r < Q * n := by
  have : (q + 1) * n ≤ Q * n := Nat.mul_le_mul_right n hq
  rw [Nat.succ_mul] at this
  omega

theorem cNdx_lt (a : Args) (param row col : Nat) (hp : param < a.numParams)
    (hr : row < a.numRows) (hc : col < a.numCols) :
    cNdx a param row col < a.numParams * a.numRows * a.numCols := by
  unfold cNdx
  have h1 : row * a.numCols + col < a.numRows * a.numCols := pix_lt _ _ _ _ hr hc
  have h2 := mul_add_lt (a.numRows * a.numCols) param (row * a.numCols + col) a.numParams hp h1
  rw [← Nat.mul_assoc, ← Nat.mul_assoc] at h2
  omega

theorem yNdx_lt (a : Args) (img row col : Nat) (hi : img < a.numImages)
    (hr : row < a.numRows) (hc : col < a.numCols) :
    yNdx a img row col < a.numImages * a.numRows * a.numCols := by
  unfold yNdx
  have h1 : row * a.numCols + col < a.numRows * a.numCols := pix_lt _ _ _ _ hr hc
  have h2 := mul_add_lt (a.numRows * a.numCols) img (row * a.numCols + col) a.numImages hi h1
  rw [← Nat.mul_assoc, ← Nat.mul_assoc] at h2
  omega

theorem xNdx_perPixel (a : Args) (param img row col : Nat) (h0 : a.perPixelX ≠ 0) :
    xNdx a param img row col
      = param * a.numRowsX * a.numColsX * a.numImages + img * a.numRowsX * a.numColsX
        + row * a.numColsX + col := by
  unfold xNdx; rw [if_neg h0]

theorem xNdx_perPixel_nest (a : Args) (param img row col : Nat) :
    param * a.numRowsX * a.numColsX * a.numImages + img * a.numRowsX * a.numColsX
        + row * a.numColsX + col
      = param * (a.numImages * (a.numRowsX * a.numColsX))
        + (img * (a.numRowsX * a.numColsX) + (row * a.numColsX + col)) := by
  ring

theorem xNdx_perPixel_lt (a : Args) (param img row col : Nat) (h0 : a.perPixelX ≠ 0)
    (hp : param < a.numParams) (hi : img < a.numImages)
    (hr : row < a.numRowsX) (hc : col < a.numColsX) :
    xNdx a param img row col < a.numParams * a.numImages * a.numRowsX * a.numColsX := by
  rw [xNdx_perPixel a param img row col h0, xNdx_perPixel_nest]
  have h1 : row * a.numColsX + col < a.numRowsX * a.numColsX := pix_lt _ _ _ _ hr hc
  have h2 := mul_add_lt (a.numRowsX * a.numColsX) img _ a.numImages hi h1
  have h3 := mul_add_lt (a.numImages * (a.numRowsX * a.numColsX)) param _ a.numParams hp h2
  have h4 : a.numParams * a.numImages * a.numRowsX * a.numColsX
      = a.numParams * (a.numImages * (a.numRowsX * a.numColsX)) := by ring
  rw [h4]
  exact h3

theorem toRat_one : Double.toRat Double.one = 1 := by
  have he : Double.one.exponent.val = 1023 := rfl
  have hf : Double.one.fraction.val = 0 := rfl
  have hs : Double.one.sign = false := rfl
  unfold Double.toRat
  rw [he, hf, hs]
  norm_num

theorem toRat_two : Double.toRat Double.two = 2 := by
  have he : Double.two.exponent.val = 1024 := rfl
  have hf : Double.two.fraction.val = 0 := rfl
  have hs : Double.two.sign = false := rfl
  unfold Double.toRat
  rw [he, hf, hs]
  norm_num

theorem toRat_four : Double.toRat Double.four = 4 := by
  have he : Double.four.exponent.val = 1025 := rfl
  have hf : Double.four.fraction.val = 0 := rfl
  have hs : Double.four.sign = false := rfl
  unfold Double.toRat
  rw [he, hf, hs]
  norm_num

theorem toRat_negNullSentinel : Double.toRat Double.negNullSentinel = -9999 := by
  have he : Double.negNullSentinel.exponent.val = 1036 := rfl
  have hf : Double.negNullSentinel.fraction.val = 993408755695616 := rfl
  have hs : Double.negNullSentinel.sign = true := rfl
  unfold Double.toRat
  rw [he, hf, hs]
  norm_num

/-- C12: in the scenario (1 x 1 grid, 4 images, 1 parameter, shared `x = [1,1,1,1]`,
`y = [1.0, 2.0, -9999.0, 4.0]`, `nullVal = -9999.0`) the pre-count is 3, the pixel passes the
gate, the solver is invoked exactly once, on the design matrix `[[1],[1],[1]]` and the
response `[1.0, 2.0, 4.0]`, and when it reports success `c[0]`, `adj_Rsqrd[0]`, `numIter[0]`
and `rmse[0]` hold its results. On that sample, read as rationals, the residual sum of
squares of the intercept-only model is least exactly at the intercept 7/3. -/
theorem scenario_end_to_end (gsl : Solver) (method : Int) (c adj_Rsqrd : Nat → Double)
    (numIter : Nat → Int) (rmse : Nat → Double) :
    Double.toRat (scenarioArgs method).nullVal = -9999 ∧
    countNonNull (scenarioArgs method) 0 0 = 3 ∧
    (scenarioArgs method).numParams ≤ countNonNull (scenarioArgs method) 0 0 ∧
    (∀ row col ty X Y, Event.solve row col ty X Y
        ∈ (wrap_gsl_multifit_robust gsl (scenarioArgs method) c adj_Rsqrd numIter rmse).log ↔
      (row = 0 ∧ col = 0 ∧ ty = regressionTypeOf method ∧
        X = ⟨3, 1, 1, [Double.one, Double.one, Double.one]⟩ ∧
        Y = ⟨3, 1, [Double.one, Double.two, Double.four]⟩)) ∧
    ((gsl (regressionTypeOf method) ⟨3, 1, 1, [Double.one, Double.one, Double.one]⟩
          ⟨3, 1, [Double.one, Double.two, Double.four]⟩).status = 0 →
      (wrap_gsl_multifit_robust gsl (scenarioArgs method) c adj_Rsqrd numIter rmse).c 0
        = (gsl (regressionTypeOf method) ⟨3, 1, 1, [Double.one, Double.one, Double.one]⟩
            ⟨3, 1, [Double.one, Double.two, Double.four]⟩).coef 0 ∧
      (wrap_gsl_multifit_robust gsl (scenarioArgs method) c adj_Rsqrd numIter rmse).adj_Rsqrd 0
        = (gsl (regressionTypeOf method) ⟨3, 1, 1, [Double.one, Double.one, Double.one]⟩
            ⟨3, 1, [Double.one, Double.two, Double.four]⟩).adj_Rsq ∧
      (wrap_gsl_multifit_robust gsl (scenarioArgs method) c adj_Rsqrd numIter rmse).numIter 0
        = (gsl (regressionTypeOf method) ⟨3, 1, 1, [Double.one, Double.one, Double.one]⟩
            ⟨3, 1, [Double.one, Double.two, Double.four]⟩).numit ∧
      (wrap_gsl_multifit_robust gsl (scenarioArgs method) c adj_Rsqrd numIter rmse).rmse 0
        = (gsl (regressionTypeOf method) ⟨3, 1, 1, [Double.one, Double.one, Double.one]⟩
            ⟨3, 1, [Double.one, Double.two, Double.four]⟩).rmse) ∧
    (∀ q : ℚ,
      (List.zipWith (fun x y => (Double.toRat y - Double.toRat x * (7 / 3)) ^ 2)
          (fillSample (scenarioArgs method) 0 0 3).gslX.data
          (fillSample (scenarioArgs method) 0 0 3).gslY.data).sum
        ≤ (List.zipWith (fun x y => (Double.toRat y - Double.toRat x * q) ^ 2)
          (fillSample (scenarioArgs method) 0 0 3).gslX.data
          (fillSample (scenarioArgs method) 0 0 3).gslY.data).sum ∧
      ((List.zipWith (fun x y => (Double.toRat y - Double.toRat x * q) ^ 2)
          (fillSample (scenarioArgs method) 0 0 3).gslX.data
          (fillSample (scenarioArgs method) 0 0 3).gslY.data).sum
        = (List.zipWith (fun x y => (Double.toRat y - Double.toRat x * (7 / 3)) ^ 2)
          (fillSample (scenarioArgs method) 0 0 3).gslX.data
          (fillSample (scenarioArgs method) 0 0 3).gslY.data).sum → q = 7 / 3)) := by
  have hn : countNonNull (scenarioArgs method) 0 0 = 3 := rfl
  have hX : (fillSample (scenarioArgs method) 0 0 3).gslX
      = ⟨3, 1, 1, [Double.one, Double.one, Double.one]⟩ := rfl
  have hY : (fillSample (scenarioArgs method) 0 0 3).gslY
      = ⟨3, 1, [Double.one, Double.two, Double.four]⟩ := rfl
  have hfit : fitPixel gsl (scenarioArgs method) 0 0
      = gsl (regressionTypeOf method) ⟨3, 1, 1, [Double.one, Double.one, Double.one]⟩
          ⟨3, 1, [Double.one, Double.two, Double.four]⟩ := rfl
  refine ⟨toRat_negNullSentinel, hn, by rw [hn]; exact Nat.le_succ_of_le (Nat.le_succ 1),
    ?_, ?_, ?_⟩
  · intro row col ty X Y
    rw [solve_mem_log]
    constructor
    · rintro ⟨hr, hc, _, h1, h2, h3⟩
      have hr0 : row = 0 := by
        have : row < 1 := hr
        omega
      have hc0 : col = 0 := by
        have : col < 1 := hc
        omega
      subst hr0; subst hc0
      rw [hn, hX] at h2
      rw [hn, hY] at h3
      exact ⟨rfl, rfl, h1, h2, h3⟩
    · rintro ⟨rfl, rfl, h1, h2, h3⟩
      refine ⟨Nat.zero_lt_one, Nat.zero_lt_one, ?_, h1, ?_, ?_⟩
      · rw [hn]; exact Nat.le_succ_of_le (Nat.le_succ 1)
      · rw [hn, hX]; exact h2
      · rw [hn, hY]; exact h3
  · intro hs
    have hf : fitted gsl (scenarioArgs method) 0 0 := by
      refine ⟨?_, ?_⟩
      · rw [hn]; exact Nat.le_succ_of_le (Nat.le_succ 1)
      · rw [hfit]; exact hs
    have h0 := final_c_cell gsl (scenarioArgs method) c adj_Rsqrd numIter rmse 0 0 0
      Nat.zero_lt_one Nat.zero_lt_one Nat.zero_lt_one
    rw [if_pos hf, hfit] at h0
    have hw := wrap_eq gsl (scenarioArgs method) c adj_Rsqrd numIter rmse
    have h1 := final_stat_cell FitResult.adj_Rsq gsl (scenarioArgs method) adj_Rsqrd 0 0
      Nat.zero_lt_one Nat.zero_lt_one
    have h2 := final_stat_cell FitResult.numit gsl (scenarioArgs method) numIter 0 0
      Nat.zero_lt_one Nat.zero_lt_one
    have h3 := final_stat_cell FitResult.rmse gsl (scenarioArgs method) rmse 0 0
      Nat.zero_lt_one Nat.zero_lt_one
    rw [if_pos hf, hfit] at h1 h2 h3
    refine ⟨h0, ?_, ?_, ?_⟩
    · rw [hw]; exact h1
    · rw [hw]; exact h2
    · rw [hw]; exact h3
  · intro q
    rw [hX, hY]
    simp only [List.zipWith_cons_cons, List.zipWith_nil_right, List.sum_cons, List.sum_nil,
      toRat_one, toRat_two, toRat_four]
    constructor
    · nlinarith [sq_nonneg (q - 7 / 3)]
    · intro h
      have h3 : (q - 7 / 3) ^ 2 = 0 := by nlinarith
      have := pow_eq_zero_iff (two_ne_zero) |>.mp h3
      linarith

theorem scenario_end_to_end_witness :
    (okSolver (regressionTypeOf 5) ⟨3, 1, 1, [Double.one, Double.one, Double.one]⟩
        ⟨3, 1, [Double.one, Double.two, Double.four]⟩).status = 0 ∧
    (wrap_gsl_multifit_robust okSolver (scenarioArgs 5) nanFill nanFill iterFill nanFill).c 0
      = Double.two ∧
    (wrap_gsl_multifit_robust okSolver (scenarioArgs 5) nanFill nanFill iterFill
      nanFill).numIter 0 = 3 :=
  ⟨by decide,
    ((scenario_end_to_end okSolver 5 nanFill nanFill iterFill nanFill).2.2.2.2.1
      (by decide)).1,
    ((scenario_end_to_end okSolver 5 nanFill nanFill iterFill nanFill).2.2.2.2.1
      (by decide)).2.2.1⟩

/-! ## C13: the stores of the second pass -/

theorem traced_fill (a : Args) (row col : Nat) (l : List Nat) (t : FillTrace) :
    (l.foldl (fillStepTraced a row col) t).fill = l.foldl (fillStep a row col) t.fill := by
  induction l generalizing t with
  | nil => rfl
  | cons i l ih =>
    simp only [List.foldl_cons]
    rw [ih]
    congr 1
    unfold fillStepTraced
    split <;> rfl

theorem traced_fold (a : Args) (row col N : Nat) (l imgs : List Nat) (t : FillTrace)
    (hfill : t.fill = sampleOf a row col N imgs)
    (hrows : t.rows = List.range imgs.length)
    (hy : t.yStores = List.range imgs.length)
    (hx : t.xStores = List.range (imgs.length * a.numParams))
    (hN : imgs.length
      + (l.filter (fun img => Double.ne (a.y (yNdx a img row col)) a.nullVal)).length ≤ N) :
    (l.foldl (fillStepTraced a row col) t).rows
        = List.range (imgs.length
          + (l.filter (fun img => Double.ne (a.y (yNdx a img row col)) a.nullVal)).length) ∧
    (l.foldl (fillStepTraced a row col) t).yStores
        = List.range (imgs.length
          + (l.filter (fun img => Double.ne (a.y (yNdx a img row col)) a.nullVal)).length) ∧
    (l.foldl (fillStepTraced a row col) t).xStores
        = List.range ((imgs.length
          + (l.filter (fun img => Double.ne (a.y (yNdx a img row col)) a.nullVal)).length)
            * a.numParams) := by
  induction l generalizing imgs t with
  | nil => simpa using ⟨hrows, hy, hx⟩
  | cons i l ih =>
    simp only [List.foldl_cons, List.filter_cons] at hN ⊢
    by_cases hv : Double.ne (a.y (yNdx a i row col)) a.nullVal = true
    · simp only [hv, if_true, List.length_cons] at hN ⊢
      have hstep := ih (imgs ++ [i]) (fillStepTraced a row col t i)
        (by
          unfold fillStepTraced
          rw [if_pos hv]
          simp only []
          rw [hfill]
          exact fillStep_valid a row col N i imgs (by omega) hv)
        (by
          unfold fillStepTraced
          rw [if_pos hv]
          simp only []
          rw [hrows, hfill]
          simp [sampleOf, List.range_succ])
        (by
          unfold fillStepTraced
          rw [if_pos hv]
          simp only []
          rw [hy, hfill]
          simp [sampleOf, List.range_succ])
        (by
          unfold fillStepTraced
          rw [if_pos hv]
          simp only []
          rw [hx, hfill]
          simp only [sampleOf, List.length_append, List.length_singleton, Nat.succ_mul]
          rw [List.range_add])
        (by simp only [List.length_append, List.length_singleton]; omega)
      simp only [List.length_append, List.length_singleton] at hstep
      have e : imgs.length + 1
          + (l.filter (fun img => Double.ne (a.y (yNdx a img row col)) a.nullVal)).length
          = imgs.length
          + ((l.filter (fun img => Double.ne (a.y (yNdx a img row col)) a.nullVal)).length
            + 1) := by omega
      rw [e] at hstep
      exact hstep
    · simp only [hv, Bool.false_eq_true, if_false] at hN ⊢
      have hstep := ih imgs (fillStepTraced a row col t i)
        (by
          unfold fillStepTraced
          rw [if_neg hv]
          simp only []
          unfold fillStep
          rw [if_neg hv]
          exact hfill)
        (by unfold fillStepTraced; rw [if_neg hv]; exact hrows)
        (by unfold fillStepTraced; rw [if_neg hv]; exact hy)
        (by unfold fillStepTraced; rw [if_neg hv]; exact hx)
        hN
      exact hstep

theorem fillStep_valid_rest (a : Args) (row col N img : Nat) (imgs : List Nat)
    (restX restY : List Double) (hX : a.numParams ≤ restX.length) (hY : 1 ≤ restY.length)
    (hv : Double.ne (a.y (yNdx a img row col)) a.nullVal = true) :
    fillStep a row col (sampleOfRest a row col N imgs restX restY) img
      = sampleOfRest a row col N (imgs ++ [img]) (restX.drop a.numParams) (restY.drop 1) := by
  have hsplit : restX = restX.take a.numParams ++ restX.drop a.numParams :=
    (List.take_append_drop _ _).symm
  obtain ⟨y0, tl, hy0⟩ : ∃ y0 tl, restY = y0 :: tl := by
    cases restY with
    | nil => simp at hY
    | cons y0 tl => exact ⟨y0, tl, rfl⟩
  unfold fillStep
  rw [if_pos hv]
  simp only [sampleOfRest, List.length_append, List.length_singleton, List.map_append,
    List.map_cons, List.map_nil, List.flatten_append, List.flatten_cons, List.flatten_nil,
    List.append_nil]
  congr 1
  · have h := copyRow_eq a row col img imgs.length N
      ((imgs.map (xRow a row col)).flatten) (restX.take a.numParams) (restX.drop a.numParams)
      (rows_length a row col imgs) (by rw [List.length_take]; omega)
    rw [List.append_assoc, ← hsplit] at h
    exact h
  · subst hy0
    simp [List.set_append]

theorem fill_fold_rest (a : Args) (row col N : Nat) (l imgs : List Nat)
    (restX restY : List Double)
    (hX : (l.filter (fun img => Double.ne (a.y (yNdx a img row col)) a.nullVal)).length
      * a.numParams ≤ restX.length)
    (hY : (l.filter (fun img => Double.ne (a.y (yNdx a img row col)) a.nullVal)).length
      ≤ restY.length) :
    l.foldl (fillStep a row col) (sampleOfRest a row col N imgs restX restY)
      = sampleOfRest a row col N
          (imgs ++ l.filter (fun img => Double.ne (a.y (yNdx a img row col)) a.nullVal))
          (restX.drop ((l.filter
            (fun img => Double.ne (a.y (yNdx a img row col)) a.nullVal)).length * a.numParams))
          (restY.drop (l.filter
            (fun img => Double.ne (a.y (yNdx a img row col)) a.nullVal)).length) := by
  induction l generalizing imgs restX restY with
  | nil => simp
  | cons i l ih =>
    simp only [List.foldl_cons, List.filter_cons] at hX hY ⊢
    by_cases hv : Double.ne (a.y (yNdx a i row col)) a.nullVal = true
    · simp only [hv, if_true, List.length_cons, Nat.succ_mul] at hX hY ⊢
      rw [fillStep_valid_rest a row col N i imgs restX restY (by omega) (by omega) hv,
        ih (imgs ++ [i]) _ _ (by rw [List.length_drop]; omega)
          (by rw [List.length_drop]; omega)]
      simp only [List.append_assoc, List.singleton_append, List.drop_drop]
      congr 2
      · omega
      · omega
    · simp only [hv, Bool.false_eq_true, if_false] at hX hY ⊢
      have : fillStep a row col (sampleOfRest a row col N imgs restX restY) i
          = sampleOfRest a row col N imgs restX restY := by
        unfold fillStep; rw [if_neg hv]
      rw [this, ih imgs restX restY hX hY]

/-- C13: the second pass, run on containers sized by the pre-count `n`, ends with its running
destination index equal to `n`; the destination rows of the appended images are
`0, 1, ..., n-1`, each below `n`; the stores into the response are at the indices
`0, ..., n-1` and the stores into the design matrix at the indices `0, ..., n*numParams-1`,
so every entry and every cell is stored to exactly once and no store falls outside; and the
outcome is the same whatever the containers held before, so no cell keeps its initial
(zero) content. -/
theorem second_pass_fills_every_cell (a : Args) (row col : Nat) (X0 Y0 : List Double)
    (hX0 : X0.length = countNonNull a row col * a.numParams)
    (hY0 : Y0.length = countNonNull a row col) :
    (fillSampleTraced a row col (countNonNull a row col)).fill
      = fillSample a row col (countNonNull a row col) ∧
    (fillSample a row col (countNonNull a row col)).n = countNonNull a row col ∧
    (fillSample a row col (countNonNull a row col)).gslY.data.length
      = countNonNull a row col ∧
    (fillSample a row col (countNonNull a row col)).gslX.data.length
      = countNonNull a row col * a.numParams ∧
    (fillSampleTraced a row col (countNonNull a row col)).rows
      = List.range (countNonNull a row col) ∧
    (fillSampleTraced a row col (countNonNull a row col)).yStores
      = List.range (countNonNull a row col) ∧
    (fillSampleTraced a row col (countNonNull a row col)).xStores
      = List.range (countNonNull a row col * a.numParams) ∧
    (∀ k, k ∈ (fillSampleTraced a row col (countNonNull a row col)).rows →
      k < countNonNull a row col) ∧
    (∀ i, i < countNonNull a row col →
      (fillSampleTraced a row col (countNonNull a row col)).yStores.count i = 1) ∧
    (∀ i, i < countNonNull a row col * a.numParams →
      (fillSampleTraced a row col (countNonNull a row col)).xStores.count i = 1) ∧
    (List.range a.numImages).foldl (fillStep a row col)
        { n := 0
          gslX := ⟨countNonNull a row col, a.numParams, a.numParams, X0⟩
          gslY := ⟨countNonNull a row col, 1, Y0⟩ }
      = fillSample a row col (countNonNull a row col) := by
  have hn : (validImages a row col).length = countNonNull a row col :=
    (countNonNull_eq a row col).symm
  have htr := traced_fold a row col (countNonNull a row col) (List.range a.numImages) []
    { fill := { n := 0, gslX := gsl_matrix_calloc (countNonNull a row col) a.numParams,
                gslY := gsl_vector_calloc (countNonNull a row col) }
      rows := [], yStores := [], xStores := [] }
    (by simp [sampleOf, gsl_matrix_calloc, gsl_vector_calloc]) rfl rfl (by simp)
    (by rw [countNonNull_eq]; simp [validImages])
  simp only [List.length_nil, Nat.zero_add] at htr
  have hv : (List.filter (fun img => Double.ne (a.y (yNdx a img row col)) a.nullVal)
      (List.range a.numImages)).length = countNonNull a row col := hn
  rw [hv] at htr
  obtain ⟨h1, h2, h3⟩ := htr
  have hr : (fillSampleTraced a row col (countNonNull a row col)).rows
      = List.range (countNonNull a row col) := h1
  have hy : (fillSampleTraced a row col (countNonNull a row col)).yStores
      = List.range (countNonNull a row col) := h2
  have hx : (fillSampleTraced a row col (countNonNull a row col)).xStores
      = List.range (countNonNull a row col * a.numParams) := h3
  refine ⟨traced_fill a row col _ _, fillSample_n a row col, ?_, ?_, hr, hy, hx, ?_, ?_, ?_, ?_⟩
  · rw [fillSample_eq]; simp [hn]
  · rw [fillSample_eq]; simp only [rows_length, hn]
  · intro k hk
    rw [hr] at hk
    exact List.mem_range.mp hk
  · intro i hi
    rw [hy]
    exact List.count_eq_one_of_mem (List.nodup_range _) (List.mem_range.mpr hi)
  · intro i hi
    rw [hx]
    exact List.count_eq_one_of_mem (List.nodup_range _) (List.mem_range.mpr hi)
  · have h0 : (⟨0, ⟨countNonNull a row col, a.numParams, a.numParams, X0⟩,
          ⟨countNonNull a row col, 1, Y0⟩⟩ : Fill)
        = sampleOfRest a row col (countNonNull a row col) [] X0 Y0 := by
      simp [sampleOfRest]
    rw [h0, fill_fold_rest a row col _ _ [] X0 Y0 (by rw [hv, hX0]) (by rw [hv, hY0]),
      fillSample_eq, hv]
    have e1 : X0.drop (countNonNull a row col * a.numParams) = [] :=
      List.drop_eq_nil_of_le (by omega)
    have e2 : Y0.drop (countNonNull a row col) = [] := List.drop_eq_nil_of_le (by omega)
    rw [e1, e2]
    simp only [sampleOfRest, List.nil_append, List.append_nil, hn, hv]
    rfl

theorem second_pass_fills_every_cell_witness :
    ([Double.nan, Double.nan, Double.nan, Double.nan].length
        = countNonNull exArgs 0 0 * exArgs.numParams ∧
      [Double.nan, Double.nan].length = countNonNull exArgs 0 0) ∧
    (fillSampleTraced exArgs 0 0 (countNonNull exArgs 0 0)).rows = [0, 1] ∧
    (fillSampleTraced exArgs 0 0 (countNonNull exArgs 0 0)).yStores = [0, 1] ∧
    (fillSampleTraced exArgs 0 0 (countNonNull exArgs 0 0)).xStores = [0, 1, 2, 3] ∧
    (List.range exArgs.numImages).foldl (fillStep exArgs 0 0)
        { n := 0
          gslX := ⟨countNonNull exArgs 0 0, exArgs.numParams, exArgs.numParams,
            [Double.nan, Double.nan, Double.nan, Double.nan]⟩
          gslY := ⟨countNonNull exArgs 0 0, 1, [Double.nan, Double.nan]⟩ }
      = fillSample exArgs 0 0 (countNonNull exArgs 0 0) :=
  ⟨⟨by decide, by decide⟩, by decide, by decide, by decide,
    (second_pass_fills_every_cell exArgs 0 0 [Double.nan, Double.nan, Double.nan, Double.nan]
      [Double.nan, Double.nan] (by decide) (by decide)).2.2.2.2.2.2.2.2.2.2⟩

/-! ## C15: pixels without any valid image -/

theorem wrap32_of_lt (z : Int) (h0 : 0 ≤ z) (h1 : z < 2147483648) : wrap32 z = z := by
  unfold wrap32
  omega

theorem imul_cast (x y : Nat) (h : x * y < 2147483648) :
    imul (x : Int) (y : Int) = ((x * y : Nat) : Int) := by
  unfold imul
  rw [wrap32_of_lt _ (by positivity) (by exact_mod_cast h)]
  push_cast
  rfl

theorem iadd_cast (x y : Nat) (h : x + y < 2147483648) :
    iadd (x : Int) (y : Int) = ((x + y : Nat) : Int) := by
  unfold iadd
  rw [wrap32_of_lt _ (by positivity) (by exact_mod_cast h)]
  push_cast
  rfl

theorem le_mul_pos (x k : Nat) (hk : 0 < k) : x ≤ x * k :=
  Nat.le_mul_of_pos_right x hk

theorem three_steps_lt (q R C row col B : Nat) (hC : 0 < C)
    (h : q * R * C + row * C + col < B) :
    q * R < B ∧ q * R * C < B ∧ row * C < B ∧ q * R * C + row * C < B := by
  have h1 : q * R ≤ q * R * C := le_mul_pos _ _ hC
  omega

theorem int_three_term (q R C row col : Nat)
    (h : q * R * C + row * C + col < 2147483648) (hC : 0 < C) :
    iadd (iadd (imul (imul q R) C) (imul row C)) col
      = ((q * R * C + row * C + col : Nat) : Int) := by
  obtain ⟨h1, h2, h3, h4⟩ := three_steps_lt q R C row col _ hC h
  rw [imul_cast q R h1, imul_cast (q * R) C h2, imul_cast row C h3,
    iadd_cast (q * R * C) (row * C) h4, iadd_cast _ col h]

/-- C16 (counterexample): in shared mode with `numParams = numImages = 65536` on a 1 x 1 grid,
the hypotheses of the claim hold (`numImages*numRows*numCols` and `numParams*numRows*numCols`
are 65536), the indices `param = 65535`, `img = 65535`, `row = col = 0` are in range, yet the
intermediate product `param * numImages` is not below `2^31` and the `int` value of `xNdx`
is -1, not the mathematical offset 4294967295. -/
theorem shared_x_index_overflows :
    wideArgs.perPixelX = 0 ∧
    wideArgs.numImages * wideArgs.numRows * wideArgs.numCols < 2147483648 ∧
    wideArgs.numParams * wideArgs.numRows * wideArgs.numCols < 2147483648 ∧
    65535 < wideArgs.numParams ∧ 65535 < wideArgs.numImages ∧
    0 < wideArgs.numRows ∧ 0 < wideArgs.numCols ∧
    xNdxSteps wideArgs 65535 65535 0 0 = [4294901760, 4294967295] ∧
    ¬ (∀ v ∈ xNdxSteps wideArgs 65535 65535 0 0, v < 2147483648) ∧
    xNdx wideArgs 65535 65535 0 0 = 4294967295 ∧
    xNdx32 wideArgs 65535 65535 0 0 = -1 ∧
    xNdx32 wideArgs 65535 65535 0 0 ≠ (xNdx wideArgs 65535 65535 0 0 : Int) := by
  decide

/-- C16 (amended): with the index expressions evaluated in 32-bit signed `int`, if
`numImages*numRows*numCols` and `numParams*numRows*numCols` are below `2^31`, and in per-pixel
mode `numParams*numImages*numRowsX*numColsX`, in shared mode `numParams*numImages`, is below
`2^31`, then for every in-range `(param, image, row, col)` (with `row < numRowsX` and
`col < numColsX` in per-pixel mode) every intermediate product and sum in the computations of
`yNdx`, `xNdx`, `pixNdx` and the coefficient offset is below `2^31`, and the `int` value of
each expression equals its mathematical offset. -/
theorem int_offsets_exact (a : Args) (param img row col : Nat)
    (hY : a.numImages * a.numRows * a.numCols < 2147483648)
    (hC : a.numParams * a.numRows * a.numCols < 2147483648)
    (hXp : a.perPixelX ≠ 0 →
      a.numParams * a.numImages * a.numRowsX * a.numColsX < 2147483648)
    (hXs : a.perPixelX = 0 → a.numParams * a.numImages < 2147483648)
    (hp : param < a.numParams) (hi : img < a.numImages)
    (hr : row < a.numRows) (hc : col < a.numCols)
    (hrc : a.perPixelX ≠ 0 → row < a.numRowsX ∧ col < a.numColsX) :
    ((∀ v ∈ yNdxSteps a img row col, v < 2147483648) ∧
      yNdx32 a img row col = (yNdx a img row col : Int)) ∧
    ((∀ v ∈ xNdxSteps a param img row col, v < 2147483648) ∧
      xNdx32 a param img row col = (xNdx a param img row col : Int)) ∧
    ((∀ v ∈ pixNdxSteps a row col, v < 2147483648) ∧
      pixNdx32 a row col = (pixNdx a row col : Int)) ∧
    ((∀ v ∈ cNdxSteps a param row col, v < 2147483648) ∧
      cNdx32 a param row col = (cNdx a param row col : Int)) := by
  have hCpos : 0 < a.numCols := by omega
  have hy : img * a.numRows * a.numCols + row * a.numCols + col < 2147483648 :=
    Nat.lt_trans (yNdx_lt a img row col hi hr hc) hY
  have hcn : param * a.numRows * a.numCols + row * a.numCols + col < 2147483648 :=
    Nat.lt_trans (cNdx_lt a param row col hp hr hc) hC
  refine ⟨⟨?_, ?_⟩, ⟨?_, ?_⟩, ⟨?_, ?_⟩, ⟨?_, ?_⟩⟩
  · obtain ⟨h1, h2, h3, h4⟩ := three_steps_lt img a.numRows a.numCols row col _ hCpos hy
    intro v hv
    simp only [yNdxSteps, List.mem_cons, List.mem_singleton, List.not_mem_nil, or_false] at hv
    rcases hv with rfl | rfl | rfl | rfl | rfl <;> assumption
  · unfold yNdx32 yNdx
    exact int_three_term img a.numRows a.numCols row col hy hCpos
  · by_cases h0 : a.perPixelX = 0
    · have hb : param * a.numImages + img < 2147483648 :=
        Nat.lt_trans (mul_add_lt a.numImages param img a.numParams hp hi) (hXs h0)
      intro v hv
      simp only [xNdxSteps, h0, if_true, List.mem_cons, List.mem_singleton, List.not_mem_nil,
        or_false] at hv
      rcases hv with rfl | rfl
      · omega
      · exact hb
    · obtain ⟨hrx, hcx⟩ := hrc h0
      have hb := Nat.lt_trans (xNdx_perPixel_lt a param img row col h0 hp hi hrx hcx) (hXp h0)
      rw [xNdx_perPixel a _ _ _ _ h0] at hb
      have hCX : 0 < a.numColsX := by omega
      have hI : 0 < a.numImages := by omega
      have e1 : param * a.numRowsX ≤ param * a.numRowsX * a.numColsX := le_mul_pos _ _ hCX
      have e2 : param * a.numRowsX * a.numColsX
          ≤ param * a.numRowsX * a.numColsX * a.numImages := le_mul_pos _ _ hI
      have e3 : img * a.numRowsX ≤ img * a.numRowsX * a.numColsX := le_mul_pos _ _ hCX
      intro v hv
      simp only [xNdxSteps, h0, if_false, List.mem_cons, List.mem_singleton,
        List.not_mem_nil, or_false] at hv
      rcases hv with rfl | rfl | rfl | rfl | rfl | rfl | rfl | rfl | rfl <;> omega
  · by_cases h0 : a.perPixelX = 0
    · have hb : param * a.numImages + img < 2147483648 :=
        Nat.lt_trans (mul_add_lt a.numImages param img a.numParams hp hi) (hXs h0)
      unfold xNdx32 xNdx
      rw [if_pos h0, if_pos h0, imul_cast param a.numImages (by omega), iadd_cast _ img hb]
    · obtain ⟨hrx, hcx⟩ := hrc h0
      have hb := Nat.lt_trans (xNdx_perPixel_lt a param img row col h0 hp hi hrx hcx) (hXp h0)
      rw [xNdx_perPixel a _ _ _ _ h0] at hb
      have hCX : 0 < a.numColsX := by omega
      have hI : 0 < a.numImages := by omega
      have e1 : param * a.numRowsX ≤ param * a.numRowsX * a.numColsX := le_mul_pos _ _ hCX
      have e2 : param * a.numRowsX * a.numColsX
          ≤ param * a.numRowsX * a.numColsX * a.numImages := le_mul_pos _ _ hI
      have e3 : img * a.numRowsX ≤ img * a.numRowsX * a.numColsX := le_mul_pos _ _ hCX
      unfold xNdx32 xNdx
      rw [if_neg h0, if_neg h0, imul_cast param a.numRowsX (by omega),
        imul_cast (param * a.numRowsX) a.numColsX (by omega),
        imul_cast (param * a.numRowsX * a.numColsX) a.numImages (by omega),
        imul_cast img a.numRowsX (by omega),
        imul_cast (img * a.numRowsX) a.numColsX (by omega),
        imul_cast row a.numColsX (by omega),
        iadd_cast (param * a.numRowsX * a.numColsX * a.numImages)
          (img * a.numRowsX * a.numColsX) (by omega),
        iadd_cast _ (row * a.numColsX) (by omega), iadd_cast _ col hb]
  · intro v hv
    simp only [pixNdxSteps, List.mem_cons, List.mem_singleton, List.not_mem_nil, or_false]
      at hv
    rcases hv with rfl | rfl <;> omega
  · unfold pixNdx32 pixNdx
    rw [imul_cast row a.numCols (by omega), iadd_cast _ col (by omega)]
  · obtain ⟨h1, h2, h3, h4⟩ := three_steps_lt param a.numRows a.numCols row col _ hCpos hcn
    intro v hv
    simp only [cNdxSteps, List.mem_cons, List.mem_singleton, List.not_mem_nil, or_false] at hv
    rcases hv with rfl | rfl | rfl | rfl | rfl <;> assumption
  · unfold cNdx32 cNdx
    exact int_three_term param a.numRows a.numCols row col hcn hCpos

theorem int_offsets_exact_witness :
    (exArgs.numImages * exArgs.numRows * exArgs.numCols < 2147483648 ∧
      exArgs.numParams * exArgs.numRows * exArgs.numCols < 2147483648 ∧
      exArgs.perPixelX = 0 ∧ exArgs.numParams * exArgs.numImages < 2147483648 ∧
      1 < exArgs.numParams ∧ 2 < exArgs.numImages ∧ 0 < exArgs.numRows ∧
      1 < exArgs.numCols) ∧
    yNdx32 exArgs 2 0 1 = (yNdx exArgs 2 0 1 : Int) ∧
    xNdx32 exArgs 1 2 0 1 = (xNdx exArgs 1 2 0 1 : Int) ∧
    cNdx32 exArgs 1 0 1 = (cNdx exArgs 1 0 1 : Int) :=
  ⟨⟨by decide, by decide, rfl, by decide, by decide, by decide, by decide, by decide⟩,
    (int_offsets_exact exArgs 1 2 0 1 (by decide) (by decide) (fun h => absurd rfl h)
      (fun _ => by decide) (by decide) (by decide) (by decide) (by decide)
      (fun h => absurd rfl h)).1.2,
    (int_offsets_exact exArgs 1 2 0 1 (by decide) (by decide) (fun h => absurd rfl h)
      (fun _ => by decide) (by decide) (by decide) (by decide) (by decide)
      (fun h => absurd rfl h)).2.1.2,
    (int_offsets_exact exArgs 1 2 0 1 (by decide) (by decide) (fun h => absurd rfl h)
      (fun _ => by decide) (by decide) (by decide) (by decide) (by decide)
      (fun h => absurd rfl h)).2.2.2.2⟩

end Robreg
